import Mathlib

set_option maxHeartbeats 1600000

/-!
Shallow embedding of the job-pipeline scripts in
`dataset_downloading/download_and_process.py` (and its `_compatible` twin,
whose relevant functions are line-for-line identical), together with proofs
about the segmenting state machine, the download retry loop, the URL
partitioner, and the per-job worker loop.
-/

namespace DownloadAndProcess

/-! ## Segmenting state machine: `process_one_video`

The decoder is modelled as a stream of frames indexed `0, 1, ..., numFrames-1`
(the Python code only ever looks at `frame_idx` from `enumerate(decoder)`; the
frame payload is opaque and passed through to the encoder).  The encoder and
the artifact writes are modelled as an event trace: which frame indices were
fed to the encoder, how many begin/finish calls happened, and which filenames
were written.  Clip bounds come from manifest files whose entries are
non-negative with `start < end` (spec §6), so `Nat` subtraction in `e - 1`
agrees with Python. -/

structure POVState where
  clipIdx : Nat
  s : Nat
  e : Nat
  files : List String
  encoded : List Nat
  encInits : Nat
  encFinishes : Nat
  decoded : List Nat

/-- One iteration of the `for frame_idx, frames in enumerate(decoder)` body.
Returns the updated state and whether the loop `break`s. -/
def povStep (fmtF : Nat → Nat → String) (clips : List (Nat × Nat))
    (st : POVState) (frameIdx : Nat) : POVState × Bool :=
  let st := { st with decoded := st.decoded ++ [frameIdx] }
  if frameIdx = st.s then
    ({ st with encInits := st.encInits + 1, encoded := st.encoded ++ [frameIdx] }, false)
  else if st.s < frameIdx ∧ frameIdx < st.e - 1 then
    ({ st with encoded := st.encoded ++ [frameIdx] }, false)
  else if frameIdx = st.e - 1 then
    let st := { st with
      encoded := st.encoded ++ [frameIdx],
      encFinishes := st.encFinishes + 1,
      files := st.files ++ [fmtF st.s st.e] }
    let clipIdx := st.clipIdx + 1
    if clipIdx = clips.length then
      ({ st with clipIdx := clipIdx }, true)
    else
      ({ st with clipIdx := clipIdx,
                 s := (clips[clipIdx]!).1, e := (clips[clipIdx]!).2 }, false)
  else
    (st, false)

/-- The decode loop: frames are pulled from the decoder in order until the
stream ends or the body breaks. -/
def povLoop (fmtF : Nat → Nat → String) (clips : List (Nat × Nat)) :
    List Nat → POVState → POVState
  | [], st => st
  | f :: rest, st =>
    let r := povStep fmtF clips st f
    if r.2 then r.1 else povLoop fmtF clips rest r.1

structure POVResult where
  result : Except Unit (List String)
  encoded : List Nat
  encInits : Nat
  encFinishes : Nat
  decoded : List Nat
  decFinishCalls : Nat

/-- The `assert clip_idx == len(clips) == len(files)` at loop exit, followed
(only on the non-raising path) by `decoder.finish()`.  An `AssertionError`
propagates before `decoder.finish()` runs, so `decFinishCalls` stays `0` on
the error path. -/
def povAssert (clips : List (Nat × Nat)) (st : POVState) : POVResult :=
  if st.clipIdx = clips.length ∧ clips.length = st.files.length then
    ⟨Except.ok st.files, st.encoded, st.encInits, st.encFinishes, st.decoded, 1⟩
  else
    ⟨Except.error (), st.encoded, st.encInits, st.encFinishes, st.decoded, 0⟩

/-- `process_one_video(video_filename, vstream_filename_format, clips, decoder,
encoder, ...)`.  `fmtF s e` stands for `vstream_filename_format.format(s, e)`;
`numFrames` is how many frames the decoder yields for this source. -/
def process_one_video (fmtF : Nat → Nat → String) (clips : List (Nat × Nat))
    (numFrames : Nat) : POVResult :=
  if clips.length = 0 then
    ⟨Except.ok [], [], 0, 0, [], 0⟩
  else
    povAssert clips (povLoop fmtF clips (List.range numFrames)
      ⟨0, (clips[0]!).1, (clips[0]!).2, [], [], 0, 0, []⟩)

/-- C1: with clips `[(0,3),(5,8)]` and a source decoding frames `0..7`,
`process_one_video` produces exactly the two artifacts named by the format
string at `(0,3)` and `(5,8)` in order, and frames `3` and `4` are consumed
from the decoder but never passed to the encoder. -/
theorem c1_segmenting_two_clips (fmtF : Nat → Nat → String) :
    (process_one_video fmtF [(0,3),(5,8)] 8).result
        = Except.ok [fmtF 0 3, fmtF 5 8] ∧
    (process_one_video fmtF [(0,3),(5,8)] 8).decoded = [0,1,2,3,4,5,6,7] ∧
    (process_one_video fmtF [(0,3),(5,8)] 8).encoded = [0,1,2,5,6,7] ∧
    3 ∉ (process_one_video fmtF [(0,3),(5,8)] 8).encoded ∧
    4 ∉ (process_one_video fmtF [(0,3),(5,8)] 8).encoded := by
  have henc : (process_one_video fmtF [(0,3),(5,8)] 8).encoded = [0,1,2,5,6,7] := by
    simp +decide [process_one_video, povAssert, povLoop, povStep, List.range_succ]
  refine ⟨?_, ?_, henc, ?_, ?_⟩
  · simp +decide [process_one_video, povAssert, povLoop, povStep, List.range_succ]
  · simp +decide [process_one_video, povAssert, povLoop, povStep, List.range_succ]
  · rw [henc]; decide
  · rw [henc]; decide

/-- Closed instance of the C1 theorem at a concrete format function. -/
theorem c1_segmenting_two_clips_witness :
    (process_one_video (fun s e => toString s ++ "_" ++ toString e)
        [(0,3),(5,8)] 8).result = Except.ok ["0_3", "5_8"] := by
  have h := c1_segmenting_two_clips (fun s e => toString s ++ "_" ++ toString e)
  exact h.1

/-- C5: on the successful path (clips `[(0,2)]`, 2 frames) `decoder.finish()`
runs exactly once; but when the loop-exit segment-count invariant is violated
(clips `[(0,3)]` while the source decodes only 2 frames, so no segment
completes), the `AssertionError` propagates before `decoder.finish()` and the
source session is never released — contradicting the claim that the release
runs on every exit path. -/
theorem c5_finish_skipped_on_invariant_violation :
    (process_one_video (fun s e => toString s ++ "_" ++ toString e)
        [(0,2)] 2).decFinishCalls = 1 ∧
    (process_one_video (fun s e => toString s ++ "_" ++ toString e)
        [(0,2)] 2).result = Except.ok ["0_2"] ∧
    (process_one_video (fun s e => toString s ++ "_" ++ toString e)
        [(0,3)] 2).result = Except.error () ∧
    (process_one_video (fun s e => toString s ++ "_" ++ toString e)
        [(0,3)] 2).decFinishCalls = 0 := by
  refine ⟨?_, ?_, ?_, ?_⟩ <;>
    simp +decide [process_one_video, povAssert, povLoop, povStep, List.range_succ]

/-! ## Fetch adapter: `download_single_video`

The external downloader (one `yt-dlp` subprocess invocation plus the
subsequent directory scan) is modelled as an oracle mapping the attempt index
to its observable outcome: process exit 0 together with the directory listing
seen by the scan, nonzero exit, `subprocess.TimeoutExpired`, any other
`Exception`, or a `BaseException` (which `except Exception` does not catch).
The embedding records the return value, the number of downloader invocations,
and the list of backoff delays passed to `time.sleep`. -/

inductive AttemptOutcome where
  | exitOk (listing : List String)
  | exitFail
  | timeout
  | exn
  | baseExn
deriving DecidableEq

inductive DlReturn where
  | success (path videoId : String)
  | failure
deriving DecidableEq

structure DlResult where
  ret : Except Unit DlReturn
  invocations : Nat
  sleeps : List Nat

/-- Python's `str.endswith`: the suffix test on the underlying character
sequence. -/
def pyEndsWith (s suffix : String) : Bool := suffix.data.isSuffixOf s.data

/-- `for file in os.listdir(temp_video_dir): if file.endswith(".mp4"): ...`,
returning the first match. -/
def findMp4 : List String → Option String
  | [] => none
  | f :: rest => if pyEndsWith f ".mp4" then some f else findMp4 rest

/-- The body of the `returncode == 0` branch: scan the directory; on a hit
return `(True, path, video_id)`, otherwise `(False, None, None)`. -/
def scanResult (tempDir : String) (listing : List String) : DlReturn :=
  match findMp4 listing with
  | some f => .success (tempDir ++ "/" ++ f) (f.replace ".mp4" "")
  | none => .failure

/-- The `for attempt in range(max_retries)` loop.  `remaining` is the number
of loop iterations left (`maxRetries - attempt`); `attempt`, `invocs` and
`sleeps` accumulate the running attempt index, downloader-invocation count and
backoff-delay trace. -/
def dlLoop (oracle : Nat → AttemptOutcome) (tempDir : String) (maxRetries : Nat) :
    Nat → Nat → Nat → List Nat → DlResult
  | 0, _, invocs, sleeps => ⟨Except.ok .failure, invocs, sleeps⟩
  | remaining + 1, attempt, invocs, sleeps =>
    match oracle attempt with
    | .exitOk listing => ⟨Except.ok (scanResult tempDir listing), invocs + 1, sleeps⟩
    | .exitFail =>
      if attempt < maxRetries - 1 then
        dlLoop oracle tempDir maxRetries remaining (attempt + 1) (invocs + 1) (sleeps ++ [5])
      else
        dlLoop oracle tempDir maxRetries remaining (attempt + 1) (invocs + 1) sleeps
    | .timeout => dlLoop oracle tempDir maxRetries remaining (attempt + 1) (invocs + 1) sleeps
    | .exn => dlLoop oracle tempDir maxRetries remaining (attempt + 1) (invocs + 1) sleeps
    | .baseExn => ⟨Except.error (), invocs + 1, sleeps⟩

/-- `download_single_video(url, temp_video_dir, max_retries=3)`. -/
def download_single_video (oracle : Nat → AttemptOutcome) (tempDir : String)
    (maxRetries : Nat := 3) : DlResult :=
  dlLoop oracle tempDir maxRetries maxRetries 0 0 []

/-- A downloader that fails with a nonzero exit on the first `k` attempts and
then exits 0, with `listing` the directory content seen by the scan. -/
def failsThenOk (k : Nat) (listing : List String) : Nat → AttemptOutcome :=
  fun i => if i < k then .exitFail else .exitOk listing

theorem dlLoop_fail_then_exitOk (oracle : Nat → AttemptOutcome) (tempDir : String)
    (m k remaining attempt invocs : Nat) (sleeps : List Nat) (listing : List String)
    (hrem : attempt + remaining = m) (hk : k + 1 ≤ remaining)
    (hfail : ∀ i, i < k → oracle (attempt + i) = .exitFail)
    (hok : oracle (attempt + k) = .exitOk listing) :
    dlLoop oracle tempDir m remaining attempt invocs sleeps =
      ⟨Except.ok (scanResult tempDir listing), invocs + (k + 1),
        sleeps ++ List.replicate k 5⟩ := by
  induction k generalizing remaining attempt invocs sleeps with
  | zero =>
    obtain ⟨r, rfl⟩ : ∃ r, remaining = r + 1 := ⟨remaining - 1, by omega⟩
    simp only [Nat.add_zero] at hok
    simp [dlLoop, hok]
  | succ k ih =>
    obtain ⟨r, rfl⟩ : ∃ r, remaining = r + 1 := ⟨remaining - 1, by omega⟩
    have h0 : oracle attempt = .exitFail := by
      have h := hfail 0 (by omega)
      simpa using h
    have hlt : attempt < m - 1 := by omega
    have hfail' : ∀ i, i < k → oracle (attempt + 1 + i) = .exitFail := by
      intro i hi
      have h := hfail (i + 1) (by omega)
      rw [show attempt + 1 + i = attempt + (i + 1) by omega]
      exact h
    have hok' : oracle (attempt + 1 + k) = .exitOk listing := by
      rw [show attempt + 1 + k = attempt + (k + 1) by omega]
      exact hok
    simp only [dlLoop, h0, if_pos hlt]
    rw [ih r (attempt + 1) (invocs + 1) (sleeps ++ [5]) (by omega) (by omega)
      hfail' hok']
    simp only [DlResult.mk.injEq]
    refine ⟨trivial, by omega, ?_⟩
    simp [List.replicate_succ]

theorem dlLoop_all_fail (oracle : Nat → AttemptOutcome) (tempDir : String)
    (m remaining attempt invocs : Nat) (sleeps : List Nat)
    (hrem : attempt + remaining = m)
    (hfail : ∀ i, oracle i = .exitFail) :
    dlLoop oracle tempDir m remaining attempt invocs sleeps =
      ⟨Except.ok .failure, invocs + remaining,
        sleeps ++ List.replicate (remaining - 1) 5⟩ := by
  induction remaining generalizing attempt invocs sleeps with
  | zero => simp [dlLoop]
  | succ r ih =>
    simp only [dlLoop, hfail attempt]
    by_cases h : attempt < m - 1
    · have hr : 1 ≤ r := by omega
      obtain ⟨r', rfl⟩ : ∃ r', r = r' + 1 := ⟨r - 1, by omega⟩
      rw [if_pos h, ih (attempt + 1) (invocs + 1) (sleeps ++ [5]) (by omega)]
      simp only [DlResult.mk.injEq]
      refine ⟨trivial, by omega, ?_⟩
      simp [List.replicate_succ]
    · have hr : r = 0 := by omega
      subst hr
      rw [if_neg h, ih (attempt + 1) (invocs + 1) sleeps (by omega)]

/-- C3: with a downloader that fails the first `k < max_retries` attempts and
then succeeds (exit 0, with `video.mp4` present), `download_single_video`
returns a success after exactly `k+1` downloader invocations, with a fixed
5-second backoff after each failed attempt; with a downloader that fails every
attempt, it returns `(False, None, None)` after exactly `max_retries`
invocations, with a fixed 5-second backoff between consecutive failed
attempts (`max_retries - 1` sleeps). -/
theorem c3_fetch_retry (k m : Nat) (dir : String) (hk : k < m) :
    (∃ path vid, (download_single_video (failsThenOk k ["video.mp4"]) dir m).ret
        = Except.ok (.success path vid))
    ∧ (download_single_video (failsThenOk k ["video.mp4"]) dir m).invocations = k + 1
    ∧ (download_single_video (failsThenOk k ["video.mp4"]) dir m).sleeps
        = List.replicate k 5
    ∧ (download_single_video (fun _ => .exitFail) dir m).ret = Except.ok .failure
    ∧ (download_single_video (fun _ => .exitFail) dir m).invocations = m
    ∧ (download_single_video (fun _ => .exitFail) dir m).sleeps
        = List.replicate (m - 1) 5 := by
  have hA := dlLoop_fail_then_exitOk (failsThenOk k ["video.mp4"]) dir m k m 0 0 []
    ["video.mp4"] (by omega) (by omega)
    (fun i hi => by simp [failsThenOk, hi])
    (by simp [failsThenOk])
  have hB := dlLoop_all_fail (fun _ => .exitFail) dir m m 0 0 [] (by omega)
    (fun _ => rfl)
  unfold download_single_video
  rw [hA, hB]
  have hscan : scanResult dir ["video.mp4"]
      = .success (dir ++ "/" ++ "video.mp4") ("video.mp4".replace ".mp4" "") := by
    rw [scanResult, show findMp4 ["video.mp4"] = some "video.mp4" by
      rw [findMp4]; rw [if_pos (by decide)]]
  exact ⟨⟨_, _, by rw [hscan]⟩, by simp, by simp, rfl, by simp, by simp⟩

/-- Closed instance of the C3 theorem at `k = 1`, `max_retries = 3`. -/
theorem c3_fetch_retry_witness :
    (download_single_video (failsThenOk 1 ["video.mp4"]) "/tmp" 3).invocations = 2
    ∧ (download_single_video (fun _ => .exitFail) "/tmp" 3).invocations = 3 := by
  have h := c3_fetch_retry 1 3 "/tmp" (by omega)
  exact ⟨h.2.1, h.2.2.2.2.1⟩

theorem dlLoop_no_baseExn (oracle : Nat → AttemptOutcome) (tempDir : String) (m : Nat)
    (h : ∀ i, oracle i ≠ .baseExn) :
    ∀ remaining attempt invocs sleeps,
      ∃ r, (dlLoop oracle tempDir m remaining attempt invocs sleeps).ret
        = Except.ok r := by
  intro remaining
  induction remaining with
  | zero =>
    intro attempt invocs sleeps
    exact ⟨.failure, rfl⟩
  | succ rem ih =>
    intro attempt invocs sleeps
    rcases ho : oracle attempt with listing | - | - | - | -
    · exact ⟨scanResult tempDir listing, by simp [dlLoop, ho]⟩
    · by_cases hlt : attempt < m - 1
      · simpa [dlLoop, ho, hlt] using ih (attempt + 1) (invocs + 1) (sleeps ++ [5])
      · simpa [dlLoop, ho, hlt] using ih (attempt + 1) (invocs + 1) sleeps
    · simpa [dlLoop, ho] using ih (attempt + 1) (invocs + 1) sleeps
    · simpa [dlLoop, ho] using ih (attempt + 1) (invocs + 1) sleeps
    · exact absurd ho (h attempt)

/-- C9: `download_single_video` never raises to its caller — for every
downloader behaviour built from subprocess exits, timeouts and ordinary
exceptions (anything `except Exception` catches, i.e. everything except a
`BaseException`), it returns a normal value rather than propagating an
error. -/
theorem c9_never_raises (oracle : Nat → AttemptOutcome) (dir : String) (m : Nat)
    (h : ∀ i, oracle i ≠ .baseExn) :
    ∃ r, (download_single_video oracle dir m).ret = Except.ok r :=
  dlLoop_no_baseExn oracle dir m h m 0 0 []

/-- Closed instance of the C9 theorem: a downloader that raises an ordinary
exception on every attempt. -/
theorem c9_never_raises_witness :
    ∃ r, (download_single_video (fun _ => .exn) "/tmp" 3).ret = Except.ok r :=
  c9_never_raises (fun _ => .exn) "/tmp" 3
    (fun i => by show AttemptOutcome.exn ≠ AttemptOutcome.baseExn; decide)

theorem findMp4_eq_none (listing : List String)
    (h : ∀ f ∈ listing, pyEndsWith f ".mp4" = false) : findMp4 listing = none := by
  induction listing with
  | nil => rfl
  | cons f rest ih =>
    have hf : pyEndsWith f ".mp4" = false := h f (List.mem_cons_self f rest)
    rw [findMp4, if_neg (by simp [hf])]
    exact ih (fun g hg => h g (List.mem_cons_of_mem f hg))

/-- C10: if the downloader exits 0 on attempt `k` (after `k` nonzero-exit
attempts) but the destination directory contains no `.mp4` file, the function
returns `(False, None, None)` immediately on that attempt: exactly `k+1`
invocations (the remaining `max_retries - (k+1)` attempts are not consumed)
and only the `k` backoff sleeps from the earlier failures — none after the
final attempt. -/
theorem c10_exit0_without_mp4 (k m : Nat) (dir : String) (listing : List String)
    (hk : k < m) (hno : ∀ f ∈ listing, pyEndsWith f ".mp4" = false) :
    (download_single_video (failsThenOk k listing) dir m).ret = Except.ok .failure
    ∧ (download_single_video (failsThenOk k listing) dir m).invocations = k + 1
    ∧ (download_single_video (failsThenOk k listing) dir m).sleeps
        = List.replicate k 5 := by
  have hA := dlLoop_fail_then_exitOk (failsThenOk k listing) dir m k m 0 0 [] listing
    (by omega) (by omega) (fun i hi => by simp [failsThenOk, hi])
    (by simp [failsThenOk])
  unfold download_single_video
  rw [hA]
  have hscan : scanResult dir listing = .failure := by
    simp [scanResult, findMp4_eq_none listing hno]
  exact ⟨by rw [hscan], by simp, by simp⟩

/-- Closed instance of the C10 theorem: exit 0 on the very first attempt with
only a non-mp4 file in the directory, `max_retries = 3`. -/
theorem c10_exit0_without_mp4_witness :
    (download_single_video (failsThenOk 0 ["a.txt"]) "/tmp" 3).ret = Except.ok .failure
    ∧ (download_single_video (failsThenOk 0 ["a.txt"]) "/tmp" 3).invocations = 1
    ∧ (download_single_video (failsThenOk 0 ["a.txt"]) "/tmp" 3).sleeps
        = List.replicate 0 5 :=
  c10_exit0_without_mp4 0 3 "/tmp" ["a.txt"] (by omega) (by decide)

/-! ## Partitioner: `split_urls`

`split_urls(urls, num_workers)` computes `urls_per_worker =
math.ceil(len(urls) / num_workers)` and then slices
`urls[i*k : min((i+1)*k, len(urls))]` for `i in range(num_workers)`, breaking
as soon as the start index reaches the end.  With `num_workers = 0` the ceil
division raises `ZeroDivisionError`; with `num_workers < 0` the `range` is
empty and the function silently returns `[]`. -/

inductive PyRunError where
  | zeroDivisionError
deriving DecidableEq

/-- The `for i in range(num_workers)` loop with its break.  `fuel` is the
number of range elements left and `i` the current index; only reached with a
positive worker count, where `k = ceil(N / num_workers)` is a natural
number. -/
def splitLoop (urls : List α) (k : Nat) : Nat → Nat → List (List α)
  | 0, _ => []
  | fuel + 1, i =>
    let start := i * k
    let stop := min ((i + 1) * k) urls.length
    if urls.length ≤ start then []
    else ((urls.drop start).take (stop - start)) :: splitLoop urls k fuel (i + 1)

/-- `split_urls(urls, num_workers)`.  For `numWorkers < 0` the loop below runs
zero times (`Int.toNat` of a negative is `0`, matching the empty
`range(num_workers)`), so the value of the unused ceiling expression is
irrelevant. -/
def split_urls (urls : List α) (numWorkers : Int) : Except PyRunError (List (List α)) :=
  if numWorkers = 0 then .error .zeroDivisionError
  else
    .ok (splitLoop urls ((urls.length + numWorkers.toNat - 1) / numWorkers.toNat)
      numWorkers.toNat 0)

theorem splitLoop_flatten (urls : List α) (k : Nat) :
    ∀ fuel i, urls.length ≤ i * k + fuel * k →
      (splitLoop urls k fuel i).flatten = urls.drop (i * k) := by
  intro fuel
  induction fuel with
  | zero =>
    intro i h
    simp only [Nat.zero_mul, Nat.add_zero] at h
    simp [splitLoop, List.drop_eq_nil_of_le h]
  | succ fuel ih =>
    intro i h
    have hik : (i + 1) * k = i * k + k := Nat.succ_mul i k
    have hfk : (fuel + 1) * k = fuel * k + k := Nat.succ_mul fuel k
    by_cases hN : urls.length ≤ i * k
    · simp [splitLoop, hN, List.drop_eq_nil_of_le hN]
    · have hshard : (urls.drop (i * k)).take (min ((i + 1) * k) urls.length - i * k)
          = (urls.drop (i * k)).take k := by
        by_cases hle : (i + 1) * k ≤ urls.length
        · rw [min_eq_left hle, hik, Nat.add_sub_cancel_left]
        · rw [min_eq_right (by omega)]
          rw [List.take_of_length_le (by simp [List.length_drop]),
            List.take_of_length_le (by simp [List.length_drop]; omega)]
      simp only [splitLoop, if_neg hN]
      rw [List.flatten_cons, hshard, ih (i + 1) (by omega)]
      rw [hik, ← List.drop_drop]
      exact List.take_append_drop k (urls.drop (i * k))

/-- `N ≤ W * ceil(N/W)` for `W ≥ 1`. -/
theorem le_mul_ceilDiv (N W : Nat) (hw : 1 ≤ W) :
    N ≤ W * ((N + W - 1) / W) := by
  have h1 := Nat.div_add_mod (N + W - 1) W
  have h2 := Nat.mod_lt (N + W - 1) (show 0 < W by omega)
  omega

/-- C2: for every job list and worker count `W ≥ 1`, the partitioner succeeds
and concatenating its shards in order reproduces the input list exactly — so
no job is duplicated and none is dropped. -/
theorem c2_partition_concat {α : Type} (urls : List α) (w : Int) (hw : 1 ≤ w) :
    ∃ shards, split_urls urls w = Except.ok shards ∧ shards.flatten = urls := by
  have hw0 : w ≠ 0 := by omega
  refine ⟨_, by rw [split_urls, if_neg hw0], ?_⟩
  have hwn : 1 ≤ w.toNat := by omega
  have h := splitLoop_flatten urls ((urls.length + w.toNat - 1) / w.toNat) w.toNat 0
    (by
      have hineq := le_mul_ceilDiv urls.length w.toNat hwn
      simpa [Nat.mul_comm] using hineq)
  simpa using h

/-- Closed instance of the C2 theorem. -/
theorem c2_partition_concat_witness :
    ∃ shards, split_urls [0, 1, 2] (2 : Int) = Except.ok shards
      ∧ shards.flatten = [0, 1, 2] :=
  c2_partition_concat [0, 1, 2] 2 (by omega)

theorem splitLoop_length_le (urls : List α) (k : Nat) :
    ∀ fuel i, ∀ s ∈ splitLoop urls k fuel i, s.length ≤ k := by
  intro fuel
  induction fuel with
  | zero =>
    intro i s hs
    simp [splitLoop] at hs
  | succ fuel ih =>
    intro i s hs
    by_cases hN : urls.length ≤ i * k
    · simp [splitLoop, hN] at hs
    · simp only [splitLoop, if_neg hN, List.mem_cons] at hs
      rcases hs with rfl | hs
      · have hik : (i + 1) * k = i * k + k := Nat.succ_mul i k
        have h1 : min ((i + 1) * k) urls.length ≤ (i + 1) * k := min_le_left _ _
        have h3 : min (min ((i + 1) * k) urls.length - i * k) (urls.length - i * k)
            ≤ min ((i + 1) * k) urls.length - i * k := min_le_left _ _
        simp only [List.length_take, List.length_drop]
        omega
      · exact ih (i + 1) s hs

theorem splitLoop_start_lt_of_ne_nil (urls : List α) (k fuel i : Nat)
    (h : splitLoop urls k fuel i ≠ []) : i * k < urls.length := by
  cases fuel with
  | zero => simp [splitLoop] at h
  | succ fuel =>
    by_cases hN : urls.length ≤ i * k
    · simp [splitLoop, hN] at h
    · omega

theorem splitLoop_mem_ne_nil (urls : List α) (k : Nat) (hk : 1 ≤ k) :
    ∀ fuel i, ∀ s ∈ splitLoop urls k fuel i, s ≠ [] := by
  intro fuel
  induction fuel with
  | zero =>
    intro i s hs
    simp [splitLoop] at hs
  | succ fuel ih =>
    intro i s hs
    by_cases hN : urls.length ≤ i * k
    · simp [splitLoop, hN] at hs
    · simp only [splitLoop, if_neg hN, List.mem_cons] at hs
      rcases hs with rfl | hs
      · have hik : (i + 1) * k = i * k + k := Nat.succ_mul i k
        have hminN : i * k < min ((i + 1) * k) urls.length := by
          have := lt_min (show i * k < (i + 1) * k by omega)
            (show i * k < urls.length by omega)
          exact this
        rw [← List.length_pos, List.length_take, List.length_drop]
        omega
      · exact ih (i + 1) s hs

theorem splitLoop_dropLast_length (urls : List α) (k : Nat) :
    ∀ fuel i, ∀ s ∈ (splitLoop urls k fuel i).dropLast, s.length = k := by
  intro fuel
  induction fuel with
  | zero =>
    intro i s hs
    simp [splitLoop] at hs
  | succ fuel ih =>
    intro i s hs
    by_cases hN : urls.length ≤ i * k
    · simp [splitLoop, hN] at hs
    · by_cases hrest : splitLoop urls k fuel (i + 1) = []
      · simp [splitLoop, if_neg hN, hrest] at hs
      · have hik : (i + 1) * k = i * k + k := Nat.succ_mul i k
        have hlt : (i + 1) * k < urls.length :=
          splitLoop_start_lt_of_ne_nil urls k fuel (i + 1) hrest
        simp only [splitLoop, if_neg hN,
          List.dropLast_cons_of_ne_nil hrest, List.mem_cons] at hs
        rcases hs with rfl | hs
        · rw [min_eq_left (by omega), List.length_take, List.length_drop]
          omega
        · exact ih (i + 1) s hs

/-- `1 ≤ ceil(N/W)` when `1 ≤ N`. -/
theorem one_le_ceilDiv (N W : Nat) (hw : 1 ≤ W) (hN : 1 ≤ N) :
    1 ≤ (N + W - 1) / W := by
  rw [Nat.le_div_iff_mul_le (by omega)]
  omega

/-- C6 counterexample: with 10 jobs and 4 workers the code chunks by
`ceil(10/4) = 3`, yielding shard sizes `3, 3, 3, 1`, so the largest and
smallest shards differ by 2 — the claimed bound
`max(shard sizes) - min(shard sizes) ≤ 1` fails. -/
theorem c6_balanced_shards_counterexample :
    ∃ shards, split_urls (List.range 10) 4 = Except.ok shards ∧
      shards.map List.length = [3, 3, 3, 1] ∧
      ∃ s₁ ∈ shards, ∃ s₂ ∈ shards, s₂.length + 1 < s₁.length := by
  refine ⟨[[0,1,2],[3,4,5],[6,7,8],[9]], by rfl, by decide, ?_⟩
  exact ⟨[0,1,2], by decide, [9], by decide, by decide⟩

/-- C6 amended: for all `N ≥ 0`, `W ≥ 1`, every shard has size
`ceil(N/W)` except possibly the last, which is smaller or equal (and never
empty); the max-min gap is only bounded by `ceil(N/W) - 1`, not by 1. -/
theorem c6_shard_sizes_amended {α : Type} (urls : List α) (w : Int) (hw : 1 ≤ w) :
    ∃ shards, split_urls urls w = Except.ok shards ∧
      (∀ s ∈ shards.dropLast,
        s.length = (urls.length + w.toNat - 1) / w.toNat) ∧
      (∀ s ∈ shards,
        s.length ≤ (urls.length + w.toNat - 1) / w.toNat ∧ s ≠ []) := by
  have hw0 : w ≠ 0 := by omega
  refine ⟨_, by rw [split_urls, if_neg hw0], ?_, ?_⟩
  · exact splitLoop_dropLast_length urls _ w.toNat 0
  · intro s hs
    refine ⟨splitLoop_length_le urls _ w.toNat 0 s hs, ?_⟩
    rcases Nat.eq_zero_or_pos urls.length with hN | hN
    · exfalso
      have hurls : urls = [] := List.length_eq_zero.mp hN
      subst hurls
      revert hs
      cases w.toNat with
      | zero => simp [splitLoop]
      | succ n => simp [splitLoop]
    · exact splitLoop_mem_ne_nil urls _
        (one_le_ceilDiv urls.length w.toNat (by omega) hN) w.toNat 0 s hs

/-- Closed instance of the amended C6 theorem. -/
theorem c6_shard_sizes_amended_witness :
    ∃ shards, split_urls [0, 1, 2, 3, 4] (2 : Int) = Except.ok shards ∧
      (∀ s ∈ shards.dropLast, s.length = (5 + (2 : Int).toNat - 1) / (2 : Int).toNat) ∧
      (∀ s ∈ shards,
        s.length ≤ (5 + (2 : Int).toNat - 1) / (2 : Int).toNat ∧ s ≠ []) := by
  have h := c6_shard_sizes_amended [0, 1, 2, 3, 4] 2 (by omega)
  simpa using h

/-- C7 counterexample: `split_urls` with worker count 0 raises
`ZeroDivisionError` from the ceil division (not a typed `InvalidConfig`
failure), and with worker count `-1` it silently returns an empty shard
list. -/
theorem c7_invalid_worker_count_counterexample :
    split_urls (["a"] : List String) 0 = Except.error PyRunError.zeroDivisionError ∧
    split_urls (["a"] : List String) (-1) = Except.ok [] := by
  constructor
  · rfl
  · rfl

/-- C7 amended: for every job list, worker count 0 raises `ZeroDivisionError`
(an arithmetic error) and any negative worker count silently returns an empty
shard list, dropping every job; no `InvalidConfig` check exists. -/
theorem c7_invalid_worker_count_amended {α : Type} (urls : List α) (w : Int)
    (hw : w < 0) :
    split_urls urls 0 = Except.error PyRunError.zeroDivisionError ∧
    split_urls urls w = Except.ok [] := by
  constructor
  · rfl
  · rw [split_urls, if_neg (by omega), Int.toNat_of_nonpos (by omega)]
    rfl

/-- Closed instance of the amended C7 theorem. -/
theorem c7_invalid_worker_count_amended_witness :
    split_urls (["b"] : List String) 0 = Except.error PyRunError.zeroDivisionError ∧
    split_urls (["b"] : List String) (-2) = Except.ok [] :=
  c7_invalid_worker_count_amended ["b"] (-2) (by omega)

/-! ## Per-job pipeline: the body of the `for i, url in enumerate(urls)` loop
in `process_worker`

The effectful collaborators are abstracted per job: the fetch result, whether
the clip manifest file exists, the parsed clip list, the outcome of
`process_one_video` (a value or a raised exception such as the
`AssertionError`), and an oracle saying whether each successive
`os.remove(video_path)` call raises.  The embedding records the increments to
the worker's `processed_count` and `failed_count`, the artifact list, how many
delete calls were attempted, and whether the source file is still on disk at
the end of the iteration. -/

inductive FetchOutcome where
  | success (videoPath videoId : String)
  | failure
deriving DecidableEq

structure JobEnv where
  fetch : FetchOutcome
  clipFileExists : Bool
  clips : List (Nat × Nat)
  segment : Except Unit (List String)
  removeRaises : Nat → Bool

structure JobResult where
  processedInc : Nat
  failedInc : Nat
  artifacts : List String
  removeCalls : Nat
  sourceExists : Bool
deriving DecidableEq

/-- The per-URL `except Exception` handler: `if "video_path" in locals() and
os.path.exists(video_path): os.remove(video_path)` inside a bare
`try/except: pass`, then `failed_count += 1`.  Returns the updated delete-call
count and whether the source file is still on disk. -/
def handlerCleanup (env : JobEnv) (calls : Nat) (srcExists : Bool) : Nat × Bool :=
  if srcExists then (calls + 1, env.removeRaises calls) else (calls, srcExists)

/-- One iteration of the job loop in `process_worker` (steps 1-7 of the
source): download, manifest check, clip parse, `process_one_video`, delete the
source file, with the surrounding `try/except` converting any raised exception
into a `failed_count` increment plus best-effort cleanup. -/
def process_worker_job (env : JobEnv) : JobResult :=
  match env.fetch with
  | .failure => ⟨0, 1, [], 0, false⟩
  | .success _ _ =>
    if ¬ env.clipFileExists then
      if env.removeRaises 0 then
        let c := handlerCleanup env 1 true
        ⟨0, 1, [], c.1, c.2⟩
      else ⟨0, 1, [], 1, false⟩
    else if env.clips.length = 0 then
      if env.removeRaises 0 then
        let c := handlerCleanup env 1 true
        ⟨0, 0 + 1, [], c.1, c.2⟩
      else ⟨0, 0, [], 1, false⟩
    else
      match env.segment with
      | .error _ =>
        let c := handlerCleanup env 0 true
        ⟨0, 1, [], c.1, c.2⟩
      | .ok files =>
        if env.removeRaises 0 then
          let c := handlerCleanup env 1 true
          ⟨1, 1, files, c.1, c.2⟩
        else ⟨1, 0, files, 1, false⟩

/-- C4 counterexample: a job whose fetch succeeds but whose manifest file is
absent is counted in `failed_count` (the code runs `failed_count += 1` on that
path), so its outcome is a failure tally, not a distinct skip — refuting the
claim that the outcome is `Skipped` and not `Failed`.  The source file is
deleted and no artifact is produced. -/
theorem c4_manifest_missing_counterexample :
    process_worker_job ⟨.success "/tmp/v.mp4" "v", false, [], Except.ok [],
        fun _ => false⟩
      = ⟨0, 1, [], 1, false⟩ := by
  rfl

/-- C4 amended: for every job whose fetch succeeds and whose manifest file is
absent (with the delete succeeding), the job increments `failed_count` by 1 —
the code has no separate skipped outcome for a missing manifest — while the
fetched source video is deleted and zero artifacts are produced.  (An empty
manifest, by contrast, increments neither counter.) -/
theorem c4_manifest_missing_amended (p v : String) (clips : List (Nat × Nat))
    (seg : Except Unit (List String)) (rm : Nat → Bool) (h : rm 0 = false) :
    process_worker_job ⟨.success p v, false, clips, seg, rm⟩ = ⟨0, 1, [], 1, false⟩ := by
  simp [process_worker_job, h]

/-- Closed instance of the amended C4 theorem. -/
theorem c4_manifest_missing_amended_witness :
    process_worker_job ⟨.success "/tmp/w.mp4" "w", false, [(0, 2)], Except.ok ["a"],
        fun _ => false⟩
      = ⟨0, 1, [], 1, false⟩ :=
  c4_manifest_missing_amended "/tmp/w.mp4" "w" [(0, 2)] (Except.ok ["a"])
    (fun _ => false) rfl

/-- C8 counterexample: a job that segments successfully but whose source-file
delete raises is counted in `processed_count` AND in `failed_count`: the
delete error reaches the per-job handler, which increments `failed_count`
(after retrying the delete) — refuting the claim that a delete failure leaves
the job recorded as completed and not failed. -/
theorem c8_delete_failure_counterexample :
    (process_worker_job ⟨.success "/tmp/v.mp4" "v", true, [(0, 3)],
        Except.ok ["a"], fun _ => true⟩).processedInc = 1 ∧
    (process_worker_job ⟨.success "/tmp/v.mp4" "v", true, [(0, 3)],
        Except.ok ["a"], fun _ => true⟩).failedInc = 1 := by
  exact ⟨rfl, rfl⟩

/-- C8 amended: for every job whose segmenting completes successfully and
whose source delete raises on every call, the job stays counted in
`processed_count` (with its artifacts), but the delete failure does change the
recorded outcome: the per-job handler also increments `failed_count`, and the
source file survives both delete attempts. -/
theorem c8_delete_failure_amended (p v : String) (clips : List (Nat × Nat))
    (files : List String) (rm : Nat → Bool) (hclips : clips.length ≠ 0)
    (hrm : ∀ i, rm i = true) :
    process_worker_job ⟨.success p v, true, clips, Except.ok files, rm⟩
      = ⟨1, 1, files, 2, true⟩ := by
  simp [process_worker_job, handlerCleanup, hclips, hrm]

/-- Closed instance of the amended C8 theorem. -/
theorem c8_delete_failure_amended_witness :
    process_worker_job ⟨.success "/tmp/u.mp4" "u", true, [(0, 2)],
        Except.ok ["b"], fun _ => true⟩
      = ⟨1, 1, ["b"], 2, true⟩ :=
  c8_delete_failure_amended "/tmp/u.mp4" "u" [(0, 2)] ["b"] (fun _ => true)
    (by decide) (fun _ => rfl)

end DownloadAndProcess
